import Mathlib

/-!
# Verification of the `cbtoolbox` crash-analysis pipeline

This file gives a shallow embedding, in Lean 4, of the crash-analysis core of
the `cbtoolbox` repository (Go), and proves or refutes a list of claims made
by its natural-language specification.

The embedded code comes from:
* `cmd/core_parser_output.go` — `saveAnalysis` (thread normalization part) and
  `compareCores` (the comparison engine);
* `cmd/coreinfo/gdb_analysis.go` — `RunGDBAnalysis` (batch debugger driver)
  and `extractCoreSummary` (transcript summary parser);
* `cmd/coreinfo/prerequisites.go` — `validateCoreFiles` (core-file classifier).

External effects (subprocess execution, `os.Stat`, `filepath.Glob`, the `file`
classification tool) are modelled as explicit function parameters.  The Go
standard-library pieces the code uses (`time.Parse`/`Format` with the RFC3339
layout, `strings.Split`, `strings.Contains`, `sort.Slice`, map iteration) are
modelled below at the fidelity the embedded code exercises.  Go map iteration
order is unspecified (randomized at runtime), so every place the Go code
iterates a map is parameterized by an enumeration function `σ`; theorems that
must hold on every run quantify over `σ` restricted to permutations.

A few helpers referenced by `cmd/core_parser_output.go` (`isSystemFunction`,
`deduplicateThreads`, `determineThreadRole`) and the record types themselves
are declared in a repository file that is not part of the source snapshot;
those are modelled from the specification's words and are marked
`Modelled from the spec:` in their doc comments.
-/

namespace CBToolbox

/-! ## Model of Go `time.Time` restricted to what the embedded code uses

`compareCores` calls `time.Parse(time.RFC3339, s)` ignoring the error (so a
malformed timestamp yields the zero `time.Time`), compares times with
`Before`/`After`, and renders them with `Format(time.RFC3339)`. -/

/-- A Go `time.Time` as used by the embedded code: `sec` is the absolute
(UTC) second count since `0001-01-01T00:00:00Z` (Go's internal epoch),
`nsec` the nanosecond part, and `offset` the zone offset (seconds east of
UTC) recorded by parsing, used only for rendering. -/
structure GoTime where
  sec : Int
  nsec : Nat
  offset : Int
deriving DecidableEq, Repr

/-- The zero `time.Time` (`time.Time{}`), i.e. `0001-01-01T00:00:00Z`. -/
def GoTime.zero : GoTime := ⟨0, 0, 0⟩

/-- Go `t.Before(u)`: absolute-time strict order. -/
def GoTime.before (t u : GoTime) : Bool :=
  t.sec < u.sec || (t.sec == u.sec && t.nsec < u.nsec)

/-- Go `t.After(u)`: absolute-time strict order, reversed. -/
def GoTime.after (t u : GoTime) : Bool :=
  u.before t

/-- Numeric value of a decimal digit, `none` on any other character. -/
def digitVal (c : Char) : Option Nat :=
  if '0' ≤ c && c ≤ '9' then some (c.toNat - '0'.toNat) else none

/-- Read exactly `n` decimal digits, most significant first, accumulating
into `acc`; returns the value and the remaining characters. -/
def readFixedDigits : Nat → Nat → List Char → Option (Nat × List Char)
  | 0, acc, l => some (acc, l)
  | n + 1, acc, c :: l =>
    match digitVal c with
    | some d => readFixedDigits n (acc * 10 + d) l
    | none => none
  | _ + 1, _, [] => none

/-- Consume one expected character. -/
def expectChar (c : Char) : List Char → Option (List Char)
  | d :: l => if d = c then some l else none
  | [] => none

/-- Proleptic-Gregorian leap-year test (as in Go's `time` package). -/
def isLeapYear (y : Nat) : Bool :=
  y % 4 == 0 && (y % 100 != 0 || y % 400 == 0)

/-- Days in a month of a given year; 0 for an out-of-range month. -/
def daysInMonth (y m : Nat) : Nat :=
  match m with
  | 1 => 31 | 3 => 31 | 5 => 31 | 7 => 31 | 8 => 31 | 10 => 31 | 12 => 31
  | 4 => 30 | 6 => 30 | 9 => 30 | 11 => 30
  | 2 => if isLeapYear y then 29 else 28
  | _ => 0

/-- Days in the months of year `y` strictly before month `m` (1-based). -/
def daysBeforeMonth (y m : Nat) : Nat :=
  (List.range (m - 1)).foldl (fun acc i => acc + daysInMonth y (i + 1)) 0

/-- Day count of `y-m-d` since `0000-01-01` (year 0 is a leap year in the
proleptic Gregorian calendar). -/
def daysSinceYear0 (y m d : Nat) : Nat :=
  let leapsBefore := if y = 0 then 0 else (y - 1) / 4 - (y - 1) / 100 + (y - 1) / 400 + 1
  365 * y + leapsBefore + daysBeforeMonth y m + (d - 1)

/-- Number of days from `0000-01-01` to `0001-01-01`. -/
def daysYear0 : Nat := 366

/-- Fractional seconds: the first (up to) 9 fraction digits, scaled to
nanoseconds; further digits are ignored, as in Go's parser. -/
def nanosOfFracDigits (ds : List Nat) : Nat :=
  let first9 := ds.take 9
  (first9.foldl (fun acc d => acc * 10 + d) 0) * 10 ^ (9 - first9.length)

/-- Parse the timezone suffix of an RFC3339 timestamp: `Z` or `±hh:mm`,
which must end the string; returns the offset in seconds east of UTC. -/
def parseZone : List Char → Option Int
  | ['Z'] => some 0
  | c :: l =>
    if c = '+' || c = '-' then
      match readFixedDigits 2 0 l with
      | some (zh, l₁) =>
        if zh ≤ 23 then
          match expectChar ':' l₁ with
          | some l₂ =>
            match readFixedDigits 2 0 l₂ with
            | some (zm, []) =>
              if zm ≤ 59 then
                let mag : Int := zh * 3600 + zm * 60
                some (if c = '+' then mag else -mag)
              else none
            | _ => none
          | none => none
        else none
      | none => none
    else none
  | [] => none

/-- Parse an optional fraction `.d+` (at least one digit) and then the zone;
returns nanoseconds and offset. -/
def parseFracAndZone (l : List Char) : Option (Nat × Int) :=
  match l with
  | '.' :: rest =>
    let ds := rest.takeWhile (fun c => (digitVal c).isSome)
    if ds.isEmpty then none
    else
      match parseZone (rest.drop ds.length) with
      | some off => some (nanosOfFracDigits (ds.filterMap digitVal), off)
      | none => none
  | _ =>
    match parseZone l with
    | some off => some (0, off)
    | none => none

/-- Model of Go `time.Parse(time.RFC3339, s)`: accepts
`YYYY-MM-DDThh:mm:ss[.d+](Z|±hh:mm)` with field range checks, returning
`none` where Go returns an error. -/
def parseRFC3339 (s : String) : Option GoTime := do
  let l := s.data
  let (y, l) ← readFixedDigits 4 0 l
  let l ← expectChar '-' l
  let (mo, l) ← readFixedDigits 2 0 l
  if mo < 1 || 12 < mo then none else do
  let l ← expectChar '-' l
  let (d, l) ← readFixedDigits 2 0 l
  if d < 1 || daysInMonth y mo < d then none else do
  let l ← expectChar 'T' l
  let (h, l) ← readFixedDigits 2 0 l
  if 23 < h then none else do
  let l ← expectChar ':' l
  let (mi, l) ← readFixedDigits 2 0 l
  if 59 < mi then none else do
  let l ← expectChar ':' l
  let (se, l) ← readFixedDigits 2 0 l
  if 59 < se then none else do
  let (ns, off) ← parseFracAndZone l
  let wall : Int :=
    ((daysSinceYear0 y mo d : Int) - daysYear0) * 86400 + h * 3600 + mi * 60 + se
  some ⟨wall - off, ns, off⟩

/-- Civil date from a day count since `0001-01-01` (era-based conversion;
all divisions have positive divisors and behave as floor division). -/
def civilFromDays (days : Int) : Int × Nat × Nat :=
  let z := days + 306
  let era := z / 146097
  let doe := (z - era * 146097).toNat
  let yoe := (doe - doe / 1460 + doe / 36524 - doe / 146096) / 365
  let doy := doe - (365 * yoe + yoe / 4 - yoe / 100)
  let mp := (5 * doy + 2) / 153
  let d := doy - (153 * mp + 2) / 5 + 1
  let m := if mp < 10 then mp + 3 else mp - 9
  let y : Int := (yoe : Int) + era * 400 + (if m ≤ 2 then 1 else 0)
  (y, m, d)

/-- Decimal rendering padded with leading zeros to width `w`. -/
def padNum (w n : Nat) : String :=
  let s := toString n
  String.mk (List.replicate (w - s.length) '0') ++ s

/-- Zone suffix as rendered by Go's RFC3339 layout: `Z` for UTC, else
`±hh:mm`. -/
def zoneSuffix (off : Int) : String :=
  if off = 0 then "Z"
  else
    (if 0 < off then "+" else "-") ++
      padNum 2 (off.natAbs / 3600) ++ ":" ++ padNum 2 (off.natAbs % 3600 / 60)

/-- Model of Go `t.Format(time.RFC3339)` (fractional seconds are not part
of that layout and are dropped). -/
def formatRFC3339 (t : GoTime) : String :=
  let wall := t.sec + t.offset
  let days := wall / 86400
  let sod := (wall % 86400).toNat
  let c := civilFromDays days
  padNum 4 c.1.toNat ++ "-" ++ padNum 2 c.2.1 ++ "-" ++ padNum 2 c.2.2 ++ "T" ++
    padNum 2 (sod / 3600) ++ ":" ++ padNum 2 (sod % 3600 / 60) ++ ":" ++
    padNum 2 (sod % 60) ++ zoneSuffix t.offset

/-- `t, _ := time.Parse(time.RFC3339, s)`: the error is discarded, so a
malformed timestamp yields the zero time. -/
def parseOrZero (s : String) : GoTime :=
  (parseRFC3339 s).getD GoTime.zero

/-! ## Data model

The record types are declared in a repository file outside the source
snapshot; fields are reconstructed from their uses in
`cmd/core_parser_output.go` and the specification's §3 data model. -/

/-- Modelled from the spec: one stack frame — function name plus optional
source location (only the function name is ever inspected by the embedded
code). -/
structure StackFrame where
  Function : String
  Location : Option String := none
deriving DecidableEq, Repr

/-- Modelled from the spec: structured signal information (name, human
description, faulting address); `compareCores` reads only `SignalName`. -/
structure SignalInfo where
  SignalName : String
  Description : String := ""
  FaultingAddress : String := ""
deriving DecidableEq, Repr

/-- Modelled from the spec: classification metadata attached to a record;
`saveAnalysis` reads only the raw classification output `FileOutput`. -/
structure FileInfo where
  FileOutput : String := ""
deriving DecidableEq, Repr

/-- Modelled from the spec: one thread's view — numeric id, ordered
backtrace, derived crash flag and semantic role label. -/
structure ThreadInfo where
  ThreadID : Nat
  Name : String := ""
  IsCrashed : Bool := false
  Backtrace : List StackFrame
deriving DecidableEq, Repr

/-- Modelled from the spec: the structured result of analyzing one core
file (a.k.a. CrashRecord); fields as used by `saveAnalysis` and
`compareCores`. -/
structure CoreAnalysis where
  CoreFile : String
  Timestamp : String
  FileInfo : FileInfo := {}
  SignalInfo : SignalInfo
  Threads : List ThreadInfo := []
  StackTrace : List StackFrame
deriving DecidableEq, Repr

/-- A cluster of crash records sharing a signature, as produced by
`compareCores`. -/
structure CrashPattern where
  Signal : String
  StackSignature : List String
  OccurrenceCount : Nat
  AffectedCoreFiles : List String
deriving DecidableEq, Repr

/-- The aggregate comparison result.  Go `map`s are modelled as association
lists with unique keys: the list order is the insertion order, which fixes
the map's *content*; wherever the Go code iterates a map, the embedding
takes an explicit enumeration function instead. -/
structure CoreComparison where
  TotalCores : Nat
  CommonSignals : List (String × Nat)
  CommonFunctions : List (String × Nat)
  TimeRange : List (String × String)
  CrashPatterns : List CrashPattern
deriving DecidableEq, Repr

/-! ## The comparison engine (`compareCores`, `cmd/core_parser_output.go`)

`isSystemFunction` is declared outside the snapshot; the engine is
parameterized by it (`isSys` below), and a concrete instance modelled from
the spec is given for witnesses. -/

/-- Modelled from the spec: the well-known "system" function set — language
runtime internals and signal trampolines; membership is the
`isSystemFunction` test.  The spec's scenario marks `sys_trampoline` as
system, and `saveAnalysis` names the runtime trampoline
`SigillSigsegvSigbus`. -/
def systemFunctionNames : List String :=
  ["sys_trampoline", "SigillSigsegvSigbus", "runtime.sigtramp"]

/-- Modelled from the spec: `isSystemFunction`. -/
def isSystemFunction (f : String) : Bool :=
  systemFunctionNames.contains f

/-- The signature-building loop of `compareCores`
(`for i, frame := range analysis.StackTrace { if i < 3 && !isSystemFunction(frame.Function) { … } }`):
appends `"|" + frame.Function` for every frame whose index is below 3 and
whose function is not a system function. -/
def sigLoop (isSys : String → Bool) : Nat → List StackFrame → String
  | _, [] => ""
  | i, f :: fs =>
    (if i < 3 && !isSys f.Function then "|" ++ f.Function else "") ++
      sigLoop isSys (i + 1) fs

/-- The crash signature of one record: the signal name followed by the
signature-loop output. -/
def signatureOf (isSys : String → Bool) (a : CoreAnalysis) : String :=
  a.SignalInfo.SignalName ++ sigLoop isSys 0 a.StackTrace

/-- `m[k]++` on a Go counter map modelled as an association list with
unique keys. -/
def bump (k : String) : List (String × Nat) → List (String × Nat)
  | [] => [(k, 1)]
  | (k', n) :: rest =>
    if k' = k then (k', n + 1) :: rest else (k', n) :: bump k rest

/-- `crashGroups[sig] = append(crashGroups[sig], analysis)` on a Go map of
slices, modelled as an association list with unique keys. -/
def insertGroup (sig : String) (a : CoreAnalysis) :
    List (String × List CoreAnalysis) → List (String × List CoreAnalysis)
  | [] => [(sig, [a])]
  | (k, g) :: rest =>
    if k = sig then (k, g ++ [a]) :: rest else (k, g) :: insertGroup sig a rest

/-- The grouping pass of `compareCores`: bucket the records by signature,
in input order. -/
def crashGroups (isSys : String → Bool) (analyses : List CoreAnalysis) :
    List (String × List CoreAnalysis) :=
  analyses.foldl (fun gs a => insertGroup (signatureOf isSys a) a gs) []

/-- `strings.Split(s, sep)` for a one-character separator, at character
level. -/
def goSplitChar (sep : Char) : List Char → List (List Char)
  | [] => [[]]
  | c :: r =>
    if c = sep then [] :: goSplitChar sep r
    else
      match goSplitChar sep r with
      | [] => [[c]]
      | g :: gs => (c :: g) :: gs

/-- `strings.Split(s, "|")` as used by `compareCores` on a signature. -/
def goSplit (sep : Char) (s : String) : List String :=
  (goSplitChar sep s.data).map String.mk

/-- Joining back what `goSplitChar` produced. -/
def goJoinChar (sep : Char) : List (List Char) → List Char
  | [] => []
  | [g] => g
  | g :: gs => g ++ sep :: goJoinChar sep gs

/-- The pattern built from one signature bucket
(`parts := strings.Split(signature, "|")`; `parts[0]` / `parts[1:]`). -/
def mkPattern (e : String × List CoreAnalysis) : CrashPattern :=
  let parts := goSplit '|' e.1
  { Signal := parts.headD ""
    StackSignature := parts.tail
    OccurrenceCount := e.2.length
    AffectedCoreFiles := e.2.map (·.CoreFile) }

/-- One step of `sort.Slice`'s effect modelled as insertion by the
comparator `OccurrenceCount i > OccurrenceCount j`. -/
def insertByCount (p : CrashPattern) : List CrashPattern → List CrashPattern
  | [] => [p]
  | q :: qs =>
    if q.OccurrenceCount < p.OccurrenceCount then p :: q :: qs
    else q :: insertByCount p qs

/-- Model of `sort.Slice(patterns, OccurrenceCount descending)`.  Go's
`sort.Slice` is deterministic in its input slice but not stable; the
embedding uses an insertion sort, which produces one particular
comparator-sorted permutation.  (No theorem below relies on which
equal-count permutation is produced: the input order itself already comes
from an arbitrary map enumeration `σ`.) -/
def sortPatternsByCount (ps : List CrashPattern) : List CrashPattern :=
  ps.foldl (fun acc p => insertByCount p acc) []

/-- The timestamp min/max loop of `compareCores`: `time.Parse` errors are
discarded (zero time), and `firstTime`/`lastTime` are both seeded with the
first record's time. -/
def timeLoop : List CoreAnalysis → GoTime × GoTime
  | [] => (GoTime.zero, GoTime.zero)
  | a :: rest =>
    rest.foldl
      (fun fl b =>
        let t := parseOrZero b.Timestamp
        (if t.before fl.1 then t else fl.1, if t.after fl.2 then t else fl.2))
      (let t := parseOrZero a.Timestamp; (t, t))

/-- `compareCores`, parameterized by the `isSystemFunction` predicate
(`isSys`) and by the order `σ` in which Go happens to enumerate the
`crashGroups` map on this run. -/
def compareCoresWith (isSys : String → Bool)
    (σ : List (String × List CoreAnalysis) → List (String × List CoreAnalysis))
    (analyses : List CoreAnalysis) : CoreComparison :=
  let fl := timeLoop analyses
  { TotalCores := analyses.length
    CommonSignals :=
      analyses.foldl (fun m a => bump a.SignalInfo.SignalName m) []
    CommonFunctions :=
      analyses.foldl
        (fun m a =>
          a.StackTrace.foldl
            (fun m f => if !isSys f.Function then bump f.Function m else m) m)
        []
    TimeRange := [("first", formatRFC3339 fl.1), ("last", formatRFC3339 fl.2)]
    CrashPatterns :=
      sortPatternsByCount
        (((σ (crashGroups isSys analyses)).filter (fun e => 1 < e.2.length)).map
          mkPattern) }

/-- `compareCores` on one particular run: the spec-modelled
`isSystemFunction` and the insertion-order map enumeration. -/
def compareCores (analyses : List CoreAnalysis) : CoreComparison :=
  compareCoresWith isSystemFunction id analyses

/-! ## Thread normalization (`saveAnalysis`, `cmd/core_parser_output.go`)

`saveAnalysis` first calls `deduplicateThreads` (declared outside the
snapshot, modelled from the spec), then marks as crashed every thread one
of whose frame functions *contains* the runtime signal-trampoline name
`SigillSigsegvSigbus`, and assigns each thread a role label. -/

/-- `strings.Contains (s, sub)` on the character lists of two strings. -/
def containsSub (sub : List Char) : List Char → Bool
  | [] => sub.isEmpty
  | c :: l => sub.isPrefixOf (c :: l) || containsSub sub l

/-- The deduplication key: the ordered sequence of frame function names. -/
def backtraceKey (t : ThreadInfo) : List String :=
  t.Backtrace.map (·.Function)

/-- Modelled from the spec: `deduplicateThreads` — threads with identical
backtraces (ordered frame-function-name sequences, exact match) collapse to
the first representative entry. -/
def deduplicateThreads (ts : List ThreadInfo) : List ThreadInfo :=
  ts.foldl
    (fun acc t =>
      if acc.any (fun u => backtraceKey u = backtraceKey t) then acc
      else acc ++ [t])
    []

/-- Modelled from the spec: `determineThreadRole` — a heuristic lookup of a
semantic role from the backtrace's frames; unmatched threads receive the
generic label. -/
def determineThreadRole (bt : List StackFrame) : String :=
  if bt.any (fun f => containsSub "SigillSigsegvSigbus".data f.Function.data)
  then "signal handler" else "worker"

/-- The normalization performed by `saveAnalysis` on `analysis.Threads`:
deduplicate, then mark crashed every thread with a frame whose function
contains `"SigillSigsegvSigbus"`, and set the role label. -/
def normalizeThreads (ts : List ThreadInfo) : List ThreadInfo :=
  (deduplicateThreads ts).map fun t =>
    let crashed :=
      t.Backtrace.any fun f => containsSub "SigillSigsegvSigbus".data f.Function.data
    { t with
      IsCrashed := t.IsCrashed || crashed
      Name := determineThreadRole t.Backtrace }

/-! ## The batch debugger driver (`RunGDBAnalysis`, `cmd/coreinfo/gdb_analysis.go`)

The per-file loop of `RunGDBAnalysis`: each core file is announced and the
debugger run on it; `run` models the external `gdbCmd.Run()` call,
returning `some errText` on a non-zero exit.  The embedding returns the
list of files on which the debugger was invoked together with the error
`RunGDBAnalysis` returns (`none` for a nil error). -/
def runGDBOnFiles (run : String → Option String) :
    List String → List String × Option String
  | [] => ([], none)
  | f :: fs =>
    match run f with
    | some e => ([f], some ("failed to run GDB on " ++ f ++ ": " ++ e))
    | none =>
      let r := runGDBOnFiles run fs
      (f :: r.1, r.2)

/-! ## The transcript summary parser (`extractCoreSummary`, `cmd/coreinfo/gdb_analysis.go`)

Each regular-expression extraction is modelled as a leftmost scan for the
pattern's literal prefix followed by its capture shape.  The character
classes involved (`[^']`, `\w`, `.`, `[^,]`, `\d`) make each capture the
maximal run allowed by the class, so the scans below are exact. -/

/-- Leftmost match: try the single-position matcher at every start
position, earliest first. -/
def scanAux {α : Type} (tryAt : List Char → Option α) : List Char → Option α
  | [] => tryAt []
  | c :: cs =>
    match tryAt (c :: cs) with
    | some r => some r
    | none => scanAux tryAt cs

/-- Capture `([^q]+)q` for a closing character `q`: a maximal nonempty run
of characters other than `q`, which must be followed by `q`. -/
def captureUntil (q : Char) (l : List Char) : Option (List Char) :=
  let run := l.takeWhile (· ≠ q)
  if run.isEmpty then none
  else if (l.drop run.length).isEmpty then none
  else some run

/-- Capture `(C+)`: a maximal nonempty run of characters of class `C`,
with no closing requirement. -/
def captureRun (cls : Char → Bool) (l : List Char) : Option (List Char) :=
  let run := l.takeWhile cls
  if run.isEmpty then none else some run

/-- Go regexp `\w`. -/
def isWordChar (c : Char) : Bool :=
  ('a' ≤ c && c ≤ 'z') || ('A' ≤ c && c ≤ 'Z') || ('0' ≤ c && c ≤ '9') || c = '_'

/-- Go regexp `\d`. -/
def isDigitChar (c : Char) : Bool := '0' ≤ c && c ≤ '9'

/-- Go regexp `.` (any character but newline). -/
def isDotChar (c : Char) : Bool := c ≠ '\n'

/-- Group 1 of ``regexp `Core was generated by '([^']+)'` `` at one
position. -/
def tryBinaryAt (l : List Char) : Option (List Char) :=
  if "Core was generated by '".data.isPrefixOf l then
    captureUntil '\'' (l.drop "Core was generated by '".length)
  else none

/-- `binaryRegex.FindStringSubmatch(gdbOutput)`, group 1. -/
def extractBinary (s : String) : Option String :=
  (scanAux tryBinaryAt s.data).map String.mk

/-- `argsRegex` is `binaryRegex` with a trailing `.*`, which never affects
matchability or group 1; its extraction coincides with `extractBinary`. -/
def extractArgs (s : String) : Option String :=
  extractBinary s

/-- Groups 1 and 2 of ``regexp `Program terminated with signal (\w+), (.+)` ``
at one position. -/
def trySignalAt (l : List Char) : Option (List Char × List Char) :=
  if "Program terminated with signal ".data.isPrefixOf l then
    match captureRun isWordChar (l.drop "Program terminated with signal ".length) with
    | some name =>
      let rest := l.drop ("Program terminated with signal ".length + name.length)
      if ", ".data.isPrefixOf rest then
        match captureRun isDotChar (rest.drop 2) with
        | some desc => some (name, desc)
        | none => none
      else none
    | none => none
  else none

/-- `signalRegex.FindStringSubmatch(gdbOutput)`, groups 1 and 2. -/
def extractSignalParts (s : String) : Option (String × String) :=
  (scanAux trySignalAt s.data).map fun p => (String.mk p.1, String.mk p.2)

/-- Group 1 of ``regexp `si_addr = ([^,]+)` `` at one position. -/
def tryFaultAddrAt (l : List Char) : Option (List Char) :=
  if "si_addr = ".data.isPrefixOf l then
    captureRun (· ≠ ',') (l.drop "si_addr = ".length)
  else none

/-- `faultAddrRegex.FindStringSubmatch(gdbOutput)`, group 1. -/
def extractFaultAddr (s : String) : Option String :=
  (scanAux tryFaultAddrAt s.data).map String.mk

/-- Group 1 of ``regexp `Current thread is (\d+)` `` at one position. -/
def tryThreadIDAt (l : List Char) : Option (List Char) :=
  if "Current thread is ".data.isPrefixOf l then
    captureRun isDigitChar (l.drop "Current thread is ".length)
  else none

/-- `threadIDRegex.FindStringSubmatch(gdbOutput)`, group 1. -/
def extractThreadID (s : String) : Option String :=
  (scanAux tryThreadIDAt s.data).map String.mk

/-- The signal field: `"NAME (DESCRIPTION)"`, or the sentinel. -/
def signalFieldOf (s : String) : String :=
  match extractSignalParts s with
  | some p => p.1 ++ " (" ++ p.2 ++ ")"
  | none => "Unknown signal"

/-- The summary string assembled by `extractCoreSummary`. -/
def summaryText (binary signal faultAddr threadID processArgs : String) : String :=
  "\nCore Dump Analysis Summary:\n----------------------------------------\n- Binary: "
    ++ binary ++ "\n- Signal: " ++ signal ++ "\n- Faulting Address: " ++ faultAddr
    ++ "\n- Thread ID: " ++ threadID ++ "\n- Process Args: " ++ processArgs ++ "\n"

/-- `extractCoreSummary`: fails when the originating-binary line is absent;
otherwise every other field degrades to its sentinel. -/
def extractCoreSummary (gdbOutput : String) : Except String String :=
  match extractBinary gdbOutput with
  | none => .error "failed to extract binary information"
  | some binary =>
    .ok (summaryText binary (signalFieldOf gdbOutput)
      ((extractFaultAddr gdbOutput).getD "N/A")
      ((extractThreadID gdbOutput).getD "N/A")
      ((extractArgs gdbOutput).getD "N/A"))

/-! ## The core-file classifier (`validateCoreFiles`, `cmd/coreinfo/prerequisites.go`)

The filesystem and the `file` classification tool are modelled as an
environment:
* `stat p` — `os.Stat(p)`: `none` for an error, `some true` for a
  directory, `some false` for a regular file (a stat error makes the loop
  `continue`);
* `glob p` — `filepath.Glob(filepath.Join(p, "*"))` (its error is
  discarded by the code);
* `isCore p` — the boolean of `isCoreFile(p)`; `isCoreFile` returns
  `false` together with any error, and the call site discards the error,
  so a classification failure behaves as "not a core file". -/
structure FSEnv where
  stat : String → Option Bool
  glob : String → List String
  isCore : String → Bool

/-- The collection loop of `validateCoreFiles`. -/
def collectCoreFiles (env : FSEnv) (args : List String) : List String :=
  args.foldl
    (fun acc arg =>
      match env.stat arg with
      | none => acc
      | some true => acc ++ (env.glob arg).filter env.isCore
      | some false => if env.isCore arg then acc ++ [arg] else acc)
    []

/-- `validateCoreFiles`: empty argument list and empty result are the only
failures. -/
def validateCoreFiles (env : FSEnv) (args : List String) :
    Except String (List String) :=
  if args.isEmpty then .error "no core files or directories provided"
  else
    let coreFiles := collectCoreFiles env args
    if coreFiles.isEmpty then .error "no valid core files provided"
    else .ok coreFiles

/-! ## Auxiliary vocabulary for the theorem statements -/

/-- Concatenation of already-separated signature parts (plain fold-free
recursion, used to state what the signature loop produces). -/
def joinParts : List String → String
  | [] => ""
  | p :: ps => p ++ joinParts ps

/-- The signature as the specification's words describe it: the signal
name followed by the *first 3 non-system frames* of the whole stack trace
(for comparison against `signatureOf`, which the source computes
differently). -/
def specSignature (isSys : String → Bool) (a : CoreAnalysis) : String :=
  a.SignalInfo.SignalName ++
    joinParts (((a.StackTrace.filter (fun f => !isSys f.Function)).take 3).map
      (fun f => "|" ++ f.Function))

/-- Reading a Go counter map modelled as an association list: the count
stored under a key (0 when absent). -/
def lookupCount (k : String) : List (String × Nat) → Nat
  | [] => 0
  | (k', n) :: rest => if k' = k then n else lookupCount k rest

/-- A thread contains a frame whose function name contains the runtime
signal-trampoline marker (the crash-detection test of `saveAnalysis`). -/
def hasMarkerFrame (t : ThreadInfo) : Bool :=
  t.Backtrace.any fun f => containsSub "SigillSigsegvSigbus".data f.Function.data

/-! ## Concrete fixtures used by counterexamples and witnesses -/

/-- A crash record with the given core file, timestamp, signal, and frame
function names. -/
def mkRecord (cf ts sig : String) (fns : List String) : CoreAnalysis :=
  { CoreFile := cf, Timestamp := ts, SignalInfo := { SignalName := sig },
    StackTrace := fns.map (fun f => { Function := f }) }

/-- The spec's scenario record: signal `SIGSEGV` and frames
`[foo, bar, baz, sys_trampoline]` with `sys_trampoline` a system frame. -/
def scenarioRecord : CoreAnalysis :=
  mkRecord "core.scenario" "" "SIGSEGV" ["foo", "bar", "baz", "sys_trampoline"]

/-- A record whose trace *starts* with a system frame, followed by three
non-system frames. -/
def leadingSysRecord : CoreAnalysis :=
  mkRecord "core.leading" "" "SIGSEGV" ["sys_trampoline", "foo", "bar", "baz"]

/-- Two records sharing a signature (for the grouping scenario). -/
def twinRecordA : CoreAnalysis := mkRecord "core.a" "" "SIGSEGV" ["foo"]

/-- Second of the two records sharing a signature. -/
def twinRecordB : CoreAnalysis := mkRecord "core.b" "" "SIGSEGV" ["foo"]

/-- Input with two distinct signature buckets of two records each
(equal-count patterns, for the ranking claim). -/
def tieInput : List CoreAnalysis :=
  [mkRecord "core.a" "" "SIGSEGV" ["foo"], mkRecord "core.b" "" "SIGSEGV" ["foo"],
   mkRecord "core.c" "" "SIGABRT" ["bar"], mkRecord "core.d" "" "SIGABRT" ["bar"]]

/-- A record with a well-formed RFC3339 timestamp. -/
def goodTimeRecord : CoreAnalysis := mkRecord "core.good" "2024-06-01T00:00:00Z" "SIGSEGV" ["foo"]

/-- A record with a malformed timestamp. -/
def badTimeRecord : CoreAnalysis := mkRecord "core.bad" "not-a-timestamp" "SIGBUS" ["qux"]

/-- A debugger-run oracle that fails on `"a"` and succeeds elsewhere. -/
def runFailingOnA : String → Option String :=
  fun f => if f = "a" then some "exit status 1" else none

/-- A debugger-run oracle that fails on `"bad"` and succeeds elsewhere. -/
def runFailingOnBad : String → Option String :=
  fun f => if f = "bad" then some "boom" else none

/-- Two threads with different backtraces, each containing the
signal-trampoline frame. -/
def twoCrashedThreads : List ThreadInfo :=
  [{ ThreadID := 1, Backtrace := [{ Function := "SigillSigsegvSigbus" }, { Function := "f" }] },
   { ThreadID := 2, Backtrace := [{ Function := "SigillSigsegvSigbus" }, { Function := "g" }] }]

/-- A classifier environment: every path is a regular file and a valid
core file. -/
def envAllValid : FSEnv :=
  { stat := fun _ => some false, glob := fun _ => [], isCore := fun _ => true }

/-- The pattern produced for the shared signature of the twin records. -/
def twinPattern : CrashPattern :=
  { Signal := "SIGSEGV", StackSignature := ["foo"], OccurrenceCount := 2,
    AffectedCoreFiles := ["core.a", "core.b"] }

/-- A thread with no signal-trampoline frame. -/
def plainThread : ThreadInfo := { ThreadID := 1, Backtrace := [{ Function := "f" }] }

/-- `plainThread` after normalization. -/
def plainThreadNorm : ThreadInfo :=
  { ThreadID := 1, Name := "worker", Backtrace := [{ Function := "f" }] }

/-! # Theorems -/

/-! ## C1 — the crash signature -/

/-- What the signature loop computes: the non-system frames *among the
first 3 positions* of the trace (not the first 3 non-system frames). -/
theorem sigLoop_eq (isSys : String → Bool) :
    ∀ (fs : List StackFrame) (i : Nat),
      sigLoop isSys i fs =
        joinParts (((fs.take (3 - i)).filter (fun f => !isSys f.Function)).map
          (fun f => "|" ++ f.Function)) := by
  intro fs
  induction fs with
  | nil => intro i; simp [sigLoop, joinParts]
  | cons f fs ih =>
    intro i
    by_cases h : i < 3
    · have h3 : 3 - i = (3 - (i + 1)) + 1 := by omega
      rw [sigLoop, ih (i + 1), h3, List.take_succ_cons, List.filter_cons]
      by_cases hf : isSys f.Function
      · simp [h, hf]
      · simp [h, hf, joinParts]
    · have h3 : 3 - i = 0 := by omega
      have h4 : 3 - (i + 1) = 0 := by omega
      rw [sigLoop, ih (i + 1), h3, h4]
      simp [h, joinParts]

/-- C1, counterexample: on a trace whose first frame is a system frame
followed by three non-system frames, the code's signature keeps only two
frame names, while the spec's "first 3 non-system frame names" rule would
keep three; so the claimed signature law fails (the spec's scenario, with
the system frame last, is not affected). -/
theorem signature_first3_counterexample :
    signatureOf isSystemFunction leadingSysRecord = "SIGSEGV|foo|bar"
      ∧ specSignature isSystemFunction leadingSysRecord = "SIGSEGV|foo|bar|baz"
      ∧ signatureOf isSystemFunction leadingSysRecord ≠
          specSignature isSystemFunction leadingSysRecord := by
  refine ⟨by decide, by decide, by decide⟩

/-- C1, amended: the signature is the signal name followed by the
non-system frames among the *first 3 positions* of the stack trace, in
call order, each prefixed by the separator; system frames never occupy a
slot, but a system frame within the first 3 positions costs a slot that is
not backfilled.  The spec's scenario (system frame in fourth position)
still yields `"SIGSEGV|foo|bar|baz"`. -/
theorem signature_amended :
    (∀ (isSys : String → Bool) (a : CoreAnalysis),
        signatureOf isSys a =
          a.SignalInfo.SignalName ++
            joinParts (((a.StackTrace.take 3).filter (fun f => !isSys f.Function)).map
              (fun f => "|" ++ f.Function)))
      ∧ signatureOf isSystemFunction scenarioRecord = "SIGSEGV|foo|bar|baz" := by
  constructor
  · intro isSys a
    unfold signatureOf
    rw [sigLoop_eq isSys a.StackTrace 0]
  · decide

/-! ## C3 — a debugger failure aborts the batch -/

/-- C3, counterexample: with a run oracle failing on `"a"`, the batch
`["a", "b"]` never processes `"b"`: the loop returns at the first failing
file. -/
theorem gdb_batch_abort_counterexample :
    runFailingOnA "a" ≠ none
      ∧ ("b" : String) ∈ ["a", "b"]
      ∧ ("b" : String) ∉ (runGDBOnFiles runFailingOnA ["a", "b"]).1
      ∧ runGDBOnFiles runFailingOnA ["a", "b"] =
          (["a"], some "failed to run GDB on a: exit status 1") := by
  refine ⟨by decide, by decide, by decide, by decide⟩

/-- C3, amended: `RunGDBAnalysis` stops at the *first* failing core file.
If every file succeeds the whole batch is processed with a nil error; if
the files split as `pre ++ f :: post` with every file of `pre` succeeding
and `f` failing, exactly `pre ++ [f]` are processed and the error for `f`
is returned, skipping `post` entirely. -/
theorem gdb_batch_abort :
    (∀ (run : String → Option String) (files : List String),
        (∀ x ∈ files, run x = none) → runGDBOnFiles run files = (files, none))
      ∧ (∀ (run : String → Option String) (pre post : List String) (f e : String),
          (∀ x ∈ pre, run x = none) → run f = some e →
          runGDBOnFiles run (pre ++ f :: post) =
            (pre ++ [f], some ("failed to run GDB on " ++ f ++ ": " ++ e))) := by
  constructor
  · intro run files h
    induction files with
    | nil => rfl
    | cons x fs ih =>
      have hx : run x = none := h x (by simp)
      simp only [runGDBOnFiles, hx]
      rw [ih (fun y hy => h y (by simp [hy]))]
  · intro run pre post f e hpre hf
    induction pre with
    | nil => simp only [List.nil_append, runGDBOnFiles, hf]
    | cons x xs ih =>
      have hx : run x = none := hpre x (by simp)
      simp only [List.cons_append, runGDBOnFiles, hx, List.append_eq]
      rw [ih (fun y hy => hpre y (by simp [hy]))]

/-- C3, witness for the amended theorem at a concrete batch. -/
theorem gdb_batch_abort_witness :
    runGDBOnFiles runFailingOnBad (["ok"] ++ "bad" :: ["skipped"]) =
      (["ok"] ++ ["bad"], some ("failed to run GDB on " ++ "bad" ++ ": " ++ "boom")) :=
  gdb_batch_abort.2 runFailingOnBad ["ok"] ["skipped"] "bad" "boom"
    (by decide) (by decide)

/-! ## C4 — the binary-identity line gates the summary parse -/

/-- C4: `extractCoreSummary` fails exactly when the originating-binary
line cannot be found; when it is found the parse succeeds and every other
missing field is a sentinel (`"Unknown signal"`, `"N/A"`); and when it is
missing, the result is the fixed error, identical for any two transcripts
missing the line — no other field influences the outcome. -/
theorem extract_summary_binary_gate :
    ∀ s t : String,
      ((∃ e, extractCoreSummary s = .error e) ↔ extractBinary s = none)
        ∧ (extractBinary s = none →
            extractCoreSummary s = .error "failed to extract binary information")
        ∧ (∀ b, extractBinary s = some b →
            extractCoreSummary s =
              .ok (summaryText b (signalFieldOf s) ((extractFaultAddr s).getD "N/A")
                ((extractThreadID s).getD "N/A") ((extractArgs s).getD "N/A")))
        ∧ (extractSignalParts s = none → signalFieldOf s = "Unknown signal")
        ∧ (extractBinary s = none → extractBinary t = none →
            extractCoreSummary s = extractCoreSummary t) := by
  intro s t
  refine ⟨?_, ?_, ?_, ?_, ?_⟩
  · unfold extractCoreSummary
    cases hb : extractBinary s <;> simp
  · intro h; unfold extractCoreSummary; rw [h]
  · intro b h; unfold extractCoreSummary; rw [h]
  · intro h; unfold signalFieldOf; rw [h]
  · intro hs ht
    unfold extractCoreSummary
    rw [hs, ht]

/-- C4, witness: a transcript with the binary line but nothing else parses
with sentinels; a transcript without it fails with the fixed error. -/
theorem extract_summary_binary_gate_witness :
    extractCoreSummary "Program terminated with signal SIGSEGV, x" =
        .error "failed to extract binary information"
      ∧ extractCoreSummary "Core was generated by 'pg'" =
          .ok (summaryText "pg" "Unknown signal" "N/A" "N/A" "pg") := by
  constructor
  · exact (extract_summary_binary_gate "Program terminated with signal SIGSEGV, x" "").2.1
      (by decide)
  · have h := (extract_summary_binary_gate "Core was generated by 'pg'" "").2.2.1 "pg"
      (by decide)
    rw [h]
    have h1 : signalFieldOf "Core was generated by 'pg'" = "Unknown signal" := by decide
    have h2 : (extractFaultAddr "Core was generated by 'pg'").getD "N/A" = "N/A" := by decide
    have h3 : (extractThreadID "Core was generated by 'pg'").getD "N/A" = "N/A" := by decide
    have h4 : (extractArgs "Core was generated by 'pg'").getD "N/A" = "pg" := by decide
    rw [h1, h2, h3, h4]

/-! ## C7 — classifier error conditions -/

/-- C7: `validateCoreFiles` fails with the no-candidates error exactly on
an empty argument list, fails with the no-valid-core-files error exactly
when the (non-empty) arguments yield zero validated paths, and otherwise
returns the collected paths in order. -/
theorem validate_core_files_errors :
    ∀ (env : FSEnv) (args : List String),
      (validateCoreFiles env args = .error "no core files or directories provided" ↔
          args = [])
        ∧ (validateCoreFiles env args = .error "no valid core files provided" ↔
            (args ≠ [] ∧ collectCoreFiles env args = []))
        ∧ (args ≠ [] → collectCoreFiles env args ≠ [] →
            validateCoreFiles env args = .ok (collectCoreFiles env args)) := by
  intro env args
  have hmsg : ("no core files or directories provided" : String) ≠
      "no valid core files provided" := by decide
  unfold validateCoreFiles
  by_cases h0 : args = []
  · subst h0
    simp
  · have h0' : args.isEmpty = false := by
      cases args with
      | nil => exact absurd rfl h0
      | cons a l => rfl
    rw [h0']
    by_cases h1 : collectCoreFiles env args = []
    · have h1' : (collectCoreFiles env args).isEmpty = true := by
        rw [h1]; rfl
      simp only [Bool.false_eq_true, if_false, h1', if_true]
      refine ⟨?_, ?_, ?_⟩
      · constructor
        · intro he
          exact absurd (Except.error.inj he).symm hmsg
        · intro he; exact absurd he h0
      · simp [h0, h1]
      · intro _ hc; exact absurd h1 hc
    · have h1' : (collectCoreFiles env args).isEmpty = false := by
        cases hc : collectCoreFiles env args with
        | nil => exact absurd hc h1
        | cons a l => rfl
      simp only [Bool.false_eq_true, if_false, h1']
      refine ⟨?_, ?_, ?_⟩
      · simp [h0]
      · simp [h1]
      · intro _ _; trivial

/-- C7, witness: one valid regular file validates to itself; the two
failure cases at concrete inputs. -/
theorem validate_core_files_errors_witness :
    validateCoreFiles envAllValid ["c"] = .ok (collectCoreFiles envAllValid ["c"])
      ∧ collectCoreFiles envAllValid ["c"] = ["c"]
      ∧ validateCoreFiles envAllValid [] =
          .error "no core files or directories provided" := by
  refine ⟨(validate_core_files_errors envAllValid ["c"]).2.2 (by decide) (by decide),
    by decide, ?_⟩
  exact (validate_core_files_errors envAllValid []).1.mpr rfl

/-! ## C10 — the empty batch -/

/-- C10: on the empty record list — on any run, i.e. for any enumeration
of the (empty) signature-bucket map — `compareCores` returns zero total
cores, empty signal and function tallies, no crash patterns, and a time
range holding exactly the keys `first` and `last`, both rendering the zero
time. -/
theorem compare_cores_empty :
    ∀ (isSys : String → Bool)
      (σ : List (String × List CoreAnalysis) → List (String × List CoreAnalysis)),
      σ [] = [] →
      compareCoresWith isSys σ [] =
        { TotalCores := 0, CommonSignals := [], CommonFunctions := [],
          TimeRange := [("first", "0001-01-01T00:00:00Z"),
                        ("last", "0001-01-01T00:00:00Z")],
          CrashPatterns := [] } := by
  intro isSys σ h
  unfold compareCoresWith
  rw [show crashGroups isSys [] = [] from rfl, h]
  simp only [CoreComparison.mk.injEq]
  refine ⟨rfl, rfl, rfl, ?_, rfl⟩
  decide

/-- C10, witness at the reference run. -/
theorem compare_cores_empty_witness :
    compareCoresWith isSystemFunction id [] =
      { TotalCores := 0, CommonSignals := [], CommonFunctions := [],
        TimeRange := [("first", "0001-01-01T00:00:00Z"),
                      ("last", "0001-01-01T00:00:00Z")],
        CrashPatterns := [] } :=
  compare_cores_empty isSystemFunction id rfl

/-! ## C8 — normalization invariants -/

/-- The deduplication fold keeps the accumulated backtrace keys pairwise
distinct. -/
theorem dedup_fold_pairwise :
    ∀ (ts acc : List ThreadInfo),
      acc.Pairwise (fun a b => backtraceKey a ≠ backtraceKey b) →
      (ts.foldl
        (fun acc t =>
          if acc.any (fun u => backtraceKey u = backtraceKey t) then acc
          else acc ++ [t]) acc).Pairwise
        (fun a b => backtraceKey a ≠ backtraceKey b) := by
  intro ts
  induction ts with
  | nil => intro acc h; exact h
  | cons t ts ih =>
    intro acc h
    simp only [List.foldl_cons]
    by_cases hm : acc.any (fun u => backtraceKey u = backtraceKey t) = true
    · rw [if_pos hm]; exact ih acc h
    · rw [if_neg hm]
      refine ih (acc ++ [t]) ?_
      rw [List.pairwise_append]
      refine ⟨h, List.pairwise_singleton _ _, ?_⟩
      intro a ha b hb
      have hb' : b = t := by simpa using hb
      subst hb'
      have := List.any_eq_false.mp (Bool.eq_false_iff.mpr hm) a ha
      simpa using this

/-- Every output of the deduplication fold comes from the accumulator or
the input list. -/
theorem dedup_fold_mem :
    ∀ (ts acc : List ThreadInfo) (u : ThreadInfo),
      u ∈ ts.foldl
        (fun acc t =>
          if acc.any (fun v => backtraceKey v = backtraceKey t) then acc
          else acc ++ [t]) acc →
      u ∈ acc ∨ u ∈ ts := by
  intro ts
  induction ts with
  | nil => intro acc u h; exact Or.inl h
  | cons t ts ih =>
    intro acc u h
    simp only [List.foldl_cons] at h
    by_cases hm : acc.any (fun v => backtraceKey v = backtraceKey t) = true
    · rw [if_pos hm] at h
      rcases ih acc u h with h' | h'
      · exact Or.inl h'
      · exact Or.inr (List.mem_cons_of_mem _ h')
    · rw [if_neg hm] at h
      rcases ih (acc ++ [t]) u h with h' | h'
      · rcases List.mem_append.mp h' with h'' | h''
        · exact Or.inl h''
        · exact Or.inr (List.mem_cons.mpr (Or.inl (by simpa using h'')))
      · exact Or.inr (List.mem_cons_of_mem _ h')

/-- C8, counterexample: two threads with *different* backtraces each
containing the signal-trampoline frame both survive deduplication and are
both marked crashed — the normalized record has two crashed threads, not
at most one. -/
theorem crashed_threads_counterexample :
    (normalizeThreads twoCrashedThreads).countP (fun u => u.IsCrashed) = 2
      ∧ ¬(normalizeThreads twoCrashedThreads).countP (fun u => u.IsCrashed) ≤ 1
      ∧ (normalizeThreads twoCrashedThreads).Pairwise
          (fun a b => a.Backtrace ≠ b.Backtrace) := by
  refine ⟨by decide, by decide, by decide⟩

/-- C8, amended: after normalization no two threads have identical
backtraces, and each output thread stems from an input thread with the
same backtrace whose crash flag is the old flag or-ed with the
trampoline-frame test — so *every* thread containing a trampoline frame is
marked crashed (there can be several), and none is marked when no frame
matches and no flag was already set. -/
theorem normalize_threads_amended :
    ∀ ts : List ThreadInfo,
      ((normalizeThreads ts).Pairwise fun a b => a.Backtrace ≠ b.Backtrace)
        ∧ (∀ u ∈ normalizeThreads ts, ∃ t, t ∈ ts ∧
            u.Backtrace = t.Backtrace ∧ u.IsCrashed = (t.IsCrashed || hasMarkerFrame t))
        ∧ ((∀ t ∈ ts, t.IsCrashed = false ∧ hasMarkerFrame t = false) →
            ∀ u ∈ normalizeThreads ts, u.IsCrashed = false) := by
  intro ts
  have hmem : ∀ u ∈ normalizeThreads ts, ∃ t, t ∈ ts ∧
      u.Backtrace = t.Backtrace ∧ u.IsCrashed = (t.IsCrashed || hasMarkerFrame t) := by
    intro u hu
    unfold normalizeThreads at hu
    rcases List.mem_map.mp hu with ⟨t, ht, rfl⟩
    rcases dedup_fold_mem ts [] t ht with h | h
    · exact absurd h (List.not_mem_nil t)
    · exact ⟨t, h, rfl, rfl⟩
  refine ⟨?_, hmem, ?_⟩
  · unfold normalizeThreads
    rw [List.pairwise_map]
    have hp := dedup_fold_pairwise ts [] (List.Pairwise.nil)
    unfold deduplicateThreads
    refine hp.imp ?_
    intro a b hk hbt
    exact hk (by unfold backtraceKey; rw [hbt])
  · intro hall u hu
    rcases hmem u hu with ⟨t, ht, _, hc⟩
    rw [hc, (hall t ht).1, (hall t ht).2]
    rfl

/-- C8, witness for the amended theorem: a single marker-free thread stays
unmarked. -/
theorem normalize_threads_amended_witness :
    plainThreadNorm.IsCrashed = false :=
  (normalize_threads_amended [plainThread]).2.2 (by decide) plainThreadNorm (by decide)

/-! ## C6 — the time range -/

/-- The `firstTime` update step of the timestamp loop. -/
def minT (x t : GoTime) : GoTime := if t.before x then t else x

/-- The `lastTime` update step of the timestamp loop. -/
def maxT (x t : GoTime) : GoTime := if t.after x then t else x

/-- `GoTime.before` is irreflexive. -/
theorem before_irrefl (t : GoTime) : t.before t = false := by
  simp [GoTime.before]

/-- `GoTime.before` order facts (a strict total preorder on
`(sec, nsec)`). -/
theorem before_facts (a b c : GoTime) :
    (a.before b = true → b.before c = true → a.before c = true)
      ∧ (a.before b = false → a.before c = true → b.before c = true)
      ∧ (a.before b = true → c.before b = false → a.before c = true) := by
  simp only [GoTime.before, Bool.or_eq_true, Bool.and_eq_true, decide_eq_true_eq,
    beq_iff_eq, Bool.or_eq_false_iff, Bool.and_eq_false_iff, decide_eq_false_iff_not,
    beq_eq_false_iff_ne, ne_eq]
  refine ⟨?_, ?_, ?_⟩ <;> intro h1 h2 <;> omega

/-- The `firstTime` fold returns an element of the considered times that
no considered time is strictly before. -/
theorem foldl_minT_spec :
    ∀ (l : List GoTime) (x : GoTime),
      (l.foldl minT x = x ∨ l.foldl minT x ∈ l)
        ∧ x.before (l.foldl minT x) = false
        ∧ ∀ t ∈ l, t.before (l.foldl minT x) = false := by
  intro l
  induction l with
  | nil =>
    intro x
    exact ⟨Or.inl rfl, before_irrefl x, by simp⟩
  | cons t l ih =>
    intro x
    simp only [List.foldl_cons]
    obtain ⟨hmem, hinit, hall⟩ := ih (minT x t)
    have hminT : minT x t = x ∨ minT x t = t := by
      unfold minT; by_cases h : t.before x = true <;> simp [h]
    refine ⟨?_, ?_, ?_⟩
    · rcases hmem with h | h
      · rcases hminT with h' | h'
        · exact Or.inl (h.trans h')
        · exact Or.inr (by rw [h, h']; exact List.mem_cons_self t l)
      · exact Or.inr (List.mem_cons_of_mem _ h)
    · by_cases hb : t.before x = true
      · have hm : minT x t = t := by unfold minT; rw [if_pos hb]
        rw [hm] at hinit ⊢
        by_contra hc
        rw [Bool.not_eq_false] at hc
        exact absurd ((before_facts t x _).1 hb hc) (by simp [hinit])
      · have hm : minT x t = x := by unfold minT; rw [if_neg hb]
        rw [hm] at hinit ⊢
        exact hinit
    · intro u hu
      rcases List.mem_cons.mp hu with rfl | hu'
      · by_cases hb : u.before x = true
        · have hm : minT x u = u := by unfold minT; rw [if_pos hb]
          rw [hm] at hinit ⊢
          exact hinit
        · have hm : minT x u = x := by unfold minT; rw [if_neg hb]
          rw [hm] at hinit ⊢
          by_contra hc
          rw [Bool.not_eq_false] at hc
          exact absurd ((before_facts u x _).2.1 (Bool.eq_false_iff.mpr hb) hc)
            (by simp [hinit])
      · exact hall u hu'

/-- The `lastTime` fold returns an element of the considered times that no
considered time is strictly after. -/
theorem foldl_maxT_spec :
    ∀ (l : List GoTime) (x : GoTime),
      (l.foldl maxT x = x ∨ l.foldl maxT x ∈ l)
        ∧ x.after (l.foldl maxT x) = false
        ∧ ∀ t ∈ l, t.after (l.foldl maxT x) = false := by
  intro l
  induction l with
  | nil =>
    intro x
    exact ⟨Or.inl rfl, before_irrefl x, by simp⟩
  | cons t l ih =>
    intro x
    simp only [List.foldl_cons]
    obtain ⟨hmem, hinit, hall⟩ := ih (maxT x t)
    have hmaxT : maxT x t = x ∨ maxT x t = t := by
      unfold maxT; by_cases h : t.after x = true <;> simp [h]
    refine ⟨?_, ?_, ?_⟩
    · rcases hmem with h | h
      · rcases hmaxT with h' | h'
        · exact Or.inl (h.trans h')
        · exact Or.inr (by rw [h, h']; exact List.mem_cons_self t l)
      · exact Or.inr (List.mem_cons_of_mem _ h)
    · by_cases hb : t.after x = true
      · have hm : maxT x t = t := by unfold maxT; rw [if_pos hb]
        rw [hm] at hinit ⊢
        unfold GoTime.after at hb hinit ⊢
        by_contra hc
        rw [Bool.not_eq_false] at hc
        exact absurd ((before_facts _ x t).1 hc hb) (by simp [hinit])
      · have hm : maxT x t = x := by unfold maxT; rw [if_neg hb]
        rw [hm] at hinit ⊢
        exact hinit
    · intro u hu
      rcases List.mem_cons.mp hu with rfl | hu'
      · by_cases hb : u.after x = true
        · have hm : maxT x u = u := by unfold maxT; rw [if_pos hb]
          rw [hm] at hinit ⊢
          exact hinit
        · have hm : maxT x u = x := by unfold maxT; rw [if_neg hb]
          rw [hm] at hinit ⊢
          unfold GoTime.after at hb hinit ⊢
          by_contra hc
          rw [Bool.not_eq_false] at hc
          exact absurd ((before_facts _ u x).2.2 hc (Bool.eq_false_iff.mpr hb))
            (by simp [hinit])
      · exact hall u hu'

/-- The pair fold of the timestamp loop splits into independent min and
max folds. -/
theorem timeLoop_fold_split :
    ∀ (l : List CoreAnalysis) (p : GoTime × GoTime),
      l.foldl
        (fun fl b =>
          let t := parseOrZero b.Timestamp
          (if t.before fl.1 then t else fl.1, if t.after fl.2 then t else fl.2)) p =
      ((l.map (fun b => parseOrZero b.Timestamp)).foldl minT p.1,
       (l.map (fun b => parseOrZero b.Timestamp)).foldl maxT p.2) := by
  intro l
  induction l with
  | nil => intro p; rfl
  | cons b l ih =>
    intro p
    simp only [List.foldl_cons, List.map_cons]
    rw [ih]
    rfl

/-- C6, counterexample: with one well-formed and one malformed timestamp,
the claim predicts both range ends equal the well-formed stamp (the only
parseable one), but the code lets the malformed record contribute the zero
time, which becomes `first`. -/
theorem time_range_counterexample :
    parseRFC3339 badTimeRecord.Timestamp = none
      ∧ parseRFC3339 goodTimeRecord.Timestamp ≠ none
      ∧ formatRFC3339 (parseOrZero goodTimeRecord.Timestamp) = "2024-06-01T00:00:00Z"
      ∧ (compareCores [goodTimeRecord, badTimeRecord]).TimeRange =
          [("first", "0001-01-01T00:00:00Z"), ("last", "2024-06-01T00:00:00Z")]
      ∧ ("0001-01-01T00:00:00Z" : String) ≠ "2024-06-01T00:00:00Z" := by
  refine ⟨by decide, by decide, by decide, by decide, by decide⟩

/-- C6, amended: on a non-empty batch the time range is the min/max over
the timestamps of *all* records, where a malformed timestamp contributes
the zero time (rather than being excluded): both ends are drawn from that
time list and no entry of it lies strictly outside them. -/
theorem time_range_minmax :
    ∀ (isSys : String → Bool)
      (σ : List (String × List CoreAnalysis) → List (String × List CoreAnalysis))
      (analyses : List CoreAnalysis),
      analyses ≠ [] →
      ∃ f l : GoTime,
        (compareCoresWith isSys σ analyses).TimeRange =
            [("first", formatRFC3339 f), ("last", formatRFC3339 l)]
          ∧ f ∈ analyses.map (fun a => parseOrZero a.Timestamp)
          ∧ l ∈ analyses.map (fun a => parseOrZero a.Timestamp)
          ∧ ∀ t ∈ analyses.map (fun a => parseOrZero a.Timestamp),
              t.before f = false ∧ t.after l = false := by
  intro isSys σ analyses hne
  cases analyses with
  | nil => exact absurd rfl hne
  | cons a rest =>
    have hTR : (compareCoresWith isSys σ (a :: rest)).TimeRange =
        [("first", formatRFC3339 (timeLoop (a :: rest)).1),
         ("last", formatRFC3339 (timeLoop (a :: rest)).2)] := rfl
    have hsplit : timeLoop (a :: rest) =
        ((rest.map (fun b => parseOrZero b.Timestamp)).foldl minT (parseOrZero a.Timestamp),
         (rest.map (fun b => parseOrZero b.Timestamp)).foldl maxT (parseOrZero a.Timestamp)) := by
      unfold timeLoop
      exact timeLoop_fold_split rest (parseOrZero a.Timestamp, parseOrZero a.Timestamp)
    obtain ⟨hminmem, hmininit, hminall⟩ :=
      foldl_minT_spec (rest.map (fun b => parseOrZero b.Timestamp)) (parseOrZero a.Timestamp)
    obtain ⟨hmaxmem, hmaxinit, hmaxall⟩ :=
      foldl_maxT_spec (rest.map (fun b => parseOrZero b.Timestamp)) (parseOrZero a.Timestamp)
    refine ⟨(timeLoop (a :: rest)).1, (timeLoop (a :: rest)).2, hTR, ?_, ?_, ?_⟩
    · rw [hsplit]
      rcases hminmem with h | h
      · rw [h, List.map_cons]; exact List.mem_cons_self _ _
      · rw [List.map_cons]; exact List.mem_cons_of_mem _ h
    · rw [hsplit]
      rcases hmaxmem with h | h
      · rw [h, List.map_cons]; exact List.mem_cons_self _ _
      · rw [List.map_cons]; exact List.mem_cons_of_mem _ h
    · intro t ht
      rw [List.map_cons] at ht
      rw [hsplit]
      rcases List.mem_cons.mp ht with rfl | ht'
      · exact ⟨hmininit, hmaxinit⟩
      · exact ⟨hminall _ ht', hmaxall _ ht'⟩

/-! ## Splitting and grouping lemmas (for C2, C5, C9) -/

/-- `goSplitChar` never returns the empty list. -/
theorem goSplitChar_ne_nil (sep : Char) : ∀ l : List Char, goSplitChar sep l ≠ [] := by
  intro l
  cases l with
  | nil => simp [goSplitChar]
  | cons c r =>
    unfold goSplitChar
    by_cases h : c = sep
    · simp [h]
    · rw [if_neg h]
      cases goSplitChar sep r <;> simp

/-- Splitting then joining is the identity. -/
theorem goJoin_goSplit (sep : Char) : ∀ l : List Char, goJoinChar sep (goSplitChar sep l) = l := by
  intro l
  induction l with
  | nil => rfl
  | cons c r ih =>
    unfold goSplitChar
    by_cases h : c = sep
    · rw [if_pos h]
      subst h
      cases hs : goSplitChar c r with
      | nil => exact absurd hs (goSplitChar_ne_nil c r)
      | cons g gs =>
        rw [hs] at ih
        show goJoinChar c ([] :: g :: gs) = c :: r
        unfold goJoinChar
        rw [ih]
        rfl
    · rw [if_neg h]
      cases hs : goSplitChar sep r with
      | nil => exact absurd hs (goSplitChar_ne_nil sep r)
      | cons g gs =>
        rw [hs] at ih
        cases gs with
        | nil =>
          show goJoinChar sep [c :: g] = c :: r
          unfold goJoinChar at ih ⊢
          rw [← ih]
        | cons g' gs' =>
          show goJoinChar sep ((c :: g) :: g' :: gs') = c :: r
          unfold goJoinChar at ih ⊢
          rw [← ih]
          rfl

/-- `goSplitChar` is injective (for a fixed separator). -/
theorem goSplitChar_injective (sep : Char) (l₁ l₂ : List Char)
    (h : goSplitChar sep l₁ = goSplitChar sep l₂) : l₁ = l₂ := by
  have := congrArg (goJoinChar sep) h
  rwa [goJoin_goSplit, goJoin_goSplit] at this

/-- `goSplit` is injective (for a fixed separator). -/
theorem goSplit_injective (sep : Char) (s t : String)
    (h : goSplit sep s = goSplit sep t) : s = t := by
  unfold goSplit at h
  have hchar : goSplitChar sep s.data = goSplitChar sep t.data := by
    have hinj : Function.Injective String.mk := fun a b hab => congrArg String.data hab
    exact List.map_injective_iff.mpr hinj h
  have := goSplitChar_injective sep s.data t.data hchar
  cases s; cases t; cases this; rfl

/-- `goSplit` never returns the empty list. -/
theorem goSplit_ne_nil (sep : Char) (s : String) : goSplit sep s ≠ [] := by
  unfold goSplit
  intro h
  exact goSplitChar_ne_nil sep s.data (List.map_eq_nil_iff.mp h)

/-- The pattern's `Signal`/`StackSignature` fields reassemble the bucket's
signature split. -/
theorem mkPattern_parts (e : String × List CoreAnalysis) :
    (mkPattern e).Signal :: (mkPattern e).StackSignature = goSplit '|' e.1 := by
  unfold mkPattern
  cases hs : goSplit '|' e.1 with
  | nil => exact absurd hs (goSplit_ne_nil '|' e.1)
  | cons p ps => simp [hs]

/-- The keys of `insertGroup`: unchanged when present, appended when
new. -/
theorem insertGroup_map_fst (sig : String) (a : CoreAnalysis) :
    ∀ gs : List (String × List CoreAnalysis),
      (insertGroup sig a gs).map Prod.fst =
        if sig ∈ gs.map Prod.fst then gs.map Prod.fst else gs.map Prod.fst ++ [sig] := by
  intro gs
  induction gs with
  | nil => simp [insertGroup]
  | cons e gs ih =>
    unfold insertGroup
    by_cases h : e.1 = sig
    · rw [if_pos h]
      simp [h]
    · rw [if_neg h]
      simp only [List.map_cons, ih, List.mem_cons]
      by_cases hm : sig ∈ gs.map Prod.fst
      · rw [if_pos hm, if_pos (Or.inr hm)]
      · rw [if_neg hm, if_neg (by
          rintro (h' | h')
          · exact h h'.symm
          · exact hm h')]
        rfl

/-- Bucket characterization step: after inserting record `a`, each bucket
equals the signature filter over `seen ++ [a]`. -/
theorem insertGroup_bucket (isSys : String → Bool) (seen : List CoreAnalysis)
    (a : CoreAnalysis) :
    ∀ gs : List (String × List CoreAnalysis),
      ((gs.map Prod.fst).Nodup) →
      (∀ e ∈ gs, e.2 = seen.filter (fun x => signatureOf isSys x == e.1) ∧ e.2 ≠ []) →
      (signatureOf isSys a ∉ gs.map Prod.fst →
        seen.filter (fun x => signatureOf isSys x == signatureOf isSys a) = []) →
      ∀ e ∈ insertGroup (signatureOf isSys a) a gs,
        e.2 = (seen ++ [a]).filter (fun x => signatureOf isSys x == e.1) ∧ e.2 ≠ [] := by
  intro gs
  induction gs with
  | nil =>
    intro _ _ hmiss e he
    have he' : e = (signatureOf isSys a, [a]) := by simpa [insertGroup] using he
    subst he'
    rw [List.filter_append]
    rw [hmiss (by simp)]
    simp
  | cons g gs ih =>
    intro hnd h hmiss e he
    have hnd' : (gs.map Prod.fst).Nodup := by
      rw [List.map_cons] at hnd
      exact hnd.of_cons
    have hg1 : g.1 ∉ gs.map Prod.fst := by
      rw [List.map_cons] at hnd
      exact (List.nodup_cons.mp hnd).1
    unfold insertGroup at he
    by_cases hk : g.1 = signatureOf isSys a
    · rw [if_pos hk] at he
      obtain heq | he' := List.mem_cons.mp he
      · rw [heq]
        constructor
        · rw [List.filter_append]
          have hga : (List.filter (fun x => signatureOf isSys x == g.1) [a]) = [a] := by
            simp [hk]
          show g.2 ++ [a] = _
          rw [hga]
          have := (h g (List.mem_cons_self g gs)).1
          rw [← this]
        · simp
      · have hne : e.1 ≠ signatureOf isSys a := by
          intro hcontra
          apply hg1
          rw [hk, ← hcontra]
          exact List.mem_map_of_mem Prod.fst he'
        constructor
        · rw [List.filter_append]
          have hz : (List.filter (fun x => signatureOf isSys x == e.1) [a]) = [] := by
            simp only [List.filter_cons, List.filter_nil]
            rw [if_neg (by simpa using fun h' => hne h'.symm)]
          rw [hz, List.append_nil]
          exact (h e (List.mem_cons_of_mem g he')).1
        · exact (h e (List.mem_cons_of_mem g he')).2
    · rw [if_neg hk] at he
      obtain heq | he' := List.mem_cons.mp he
      · rw [heq]
        constructor
        · rw [List.filter_append]
          have hz : (List.filter (fun x => signatureOf isSys x == g.1) [a]) = [] := by
            simp only [List.filter_cons, List.filter_nil]
            rw [if_neg (by simpa using fun h' => hk h'.symm)]
          rw [hz, List.append_nil]
          exact (h g (List.mem_cons_self g gs)).1
        · exact (h g (List.mem_cons_self g gs)).2
      · refine ih hnd' (fun e' he'' => h e' (List.mem_cons_of_mem g he'')) ?_ e he'
        intro hnm
        apply hmiss
        rw [List.map_cons, List.mem_cons]
        rintro (h' | h')
        · exact hk h'.symm
        · exact hnm h'

/-- The grouping-fold invariant: unique keys, buckets are signature
filters over the records seen so far, and every seen record's signature is
a key. -/
theorem crashGroups_fold_inv (isSys : String → Bool) :
    ∀ (l seen : List CoreAnalysis) (gs : List (String × List CoreAnalysis)),
      (gs.map Prod.fst).Nodup →
      (∀ e ∈ gs, e.2 = seen.filter (fun x => signatureOf isSys x == e.1) ∧ e.2 ≠ []) →
      (∀ x ∈ seen, signatureOf isSys x ∈ gs.map Prod.fst) →
      (((l.foldl (fun gs a => insertGroup (signatureOf isSys a) a gs) gs).map Prod.fst).Nodup
        ∧ (∀ e ∈ l.foldl (fun gs a => insertGroup (signatureOf isSys a) a gs) gs,
            e.2 = (seen ++ l).filter (fun x => signatureOf isSys x == e.1) ∧ e.2 ≠ [])
        ∧ (∀ x ∈ seen ++ l, signatureOf isSys x ∈
            (l.foldl (fun gs a => insertGroup (signatureOf isSys a) a gs) gs).map Prod.fst)) := by
  intro l
  induction l with
  | nil =>
    intro seen gs hnd h hcomp
    simp only [List.foldl_nil, List.append_nil]
    exact ⟨hnd, h, hcomp⟩
  | cons a l ih =>
    intro seen gs hnd h hcomp
    simp only [List.foldl_cons]
    have hmiss : signatureOf isSys a ∉ gs.map Prod.fst →
        seen.filter (fun x => signatureOf isSys x == signatureOf isSys a) = [] := by
      intro hnm
      rw [List.filter_eq_nil_iff]
      intro x hx hbx
      exact hnm (by
        have : signatureOf isSys x = signatureOf isSys a := by simpa using hbx
        rw [← this]
        exact hcomp x hx)
    have hnd2 : ((insertGroup (signatureOf isSys a) a gs).map Prod.fst).Nodup := by
      rw [insertGroup_map_fst]
      by_cases hm : signatureOf isSys a ∈ gs.map Prod.fst
      · rw [if_pos hm]; exact hnd
      · rw [if_neg hm]
        simp [List.nodup_append, hnd, hm]
    have hsub : ∀ s : String, s ∈ gs.map Prod.fst →
        s ∈ (insertGroup (signatureOf isSys a) a gs).map Prod.fst := by
      intro s hs
      rw [insertGroup_map_fst]
      by_cases hm : signatureOf isSys a ∈ gs.map Prod.fst
      · rw [if_pos hm]; exact hs
      · rw [if_neg hm]; exact List.mem_append.mpr (Or.inl hs)
    have hsig : signatureOf isSys a ∈ (insertGroup (signatureOf isSys a) a gs).map Prod.fst := by
      rw [insertGroup_map_fst]
      by_cases hm : signatureOf isSys a ∈ gs.map Prod.fst
      · rw [if_pos hm]; exact hm
      · rw [if_neg hm]; exact List.mem_append.mpr (Or.inr (by simp))
    have h2 : ∀ e ∈ insertGroup (signatureOf isSys a) a gs,
        e.2 = (seen ++ [a]).filter (fun x => signatureOf isSys x == e.1) ∧ e.2 ≠ [] :=
      insertGroup_bucket isSys seen a gs hnd h hmiss
    have hcomp2 : ∀ x ∈ seen ++ [a], signatureOf isSys x ∈
        (insertGroup (signatureOf isSys a) a gs).map Prod.fst := by
      intro x hx
      rcases List.mem_append.mp hx with hx' | hx'
      · exact hsub _ (hcomp x hx')
      · have : x = a := by simpa using hx'
        subst this
        exact hsig
    have := ih (seen ++ [a]) (insertGroup (signatureOf isSys a) a gs) hnd2 h2 hcomp2
    rwa [List.append_assoc, List.singleton_append] at this

/-- The grouping pass: unique keys, each bucket is exactly the signature
filter over the whole input, buckets are non-empty, and every record's
signature is a key. -/
theorem crashGroups_spec (isSys : String → Bool) (analyses : List CoreAnalysis) :
    ((crashGroups isSys analyses).map Prod.fst).Nodup
      ∧ (∀ e ∈ crashGroups isSys analyses,
          e.2 = analyses.filter (fun x => signatureOf isSys x == e.1) ∧ e.2 ≠ [])
      ∧ (∀ x ∈ analyses, signatureOf isSys x ∈ (crashGroups isSys analyses).map Prod.fst) := by
  have := crashGroups_fold_inv isSys analyses [] [] (by simp) (by simp) (by simp)
  simpa [crashGroups] using this

/-- With unique keys, the number of entries carrying a given key is 1 or 0
according to key membership. -/
theorem countP_key_nodup :
    ∀ (gs : List (String × List CoreAnalysis)) (s : String),
      (gs.map Prod.fst).Nodup →
      gs.countP (fun e => decide (e.1 = s)) = if s ∈ gs.map Prod.fst then 1 else 0 := by
  intro gs
  induction gs with
  | nil => intro s _; simp
  | cons e gs ih =>
    intro s hnd
    rw [List.map_cons] at hnd
    obtain ⟨hhead, htail⟩ := List.nodup_cons.mp hnd
    rw [List.countP_cons]
    by_cases he : e.1 = s
    · subst he
      have h0 : gs.countP (fun e' => decide (e'.1 = e.1)) = 0 := by
        rw [List.countP_eq_zero]
        intro e' he'
        simp only [decide_eq_true_eq]
        intro hc
        exact hhead (hc ▸ List.mem_map_of_mem Prod.fst he')
      rw [h0]
      simp
    · have hd : (decide (e.1 = s)) = false := by simp [he]
      rw [hd, ih s htail]
      simp only [Bool.false_eq_true, if_false, Nat.add_zero, List.map_cons, List.mem_cons]
      by_cases hm : s ∈ gs.map Prod.fst
      · rw [if_pos hm, if_pos (Or.inr hm)]
      · rw [if_neg hm, if_neg (by
          rintro (h' | h')
          · exact he h'.symm
          · exact hm h')]

/-! ## Sorting lemmas (for C2, C5, C9) -/

/-- Insertion preserves the multiset of patterns. -/
theorem insertByCount_perm (p : CrashPattern) :
    ∀ l : List CrashPattern, (insertByCount p l).Perm (p :: l) := by
  intro l
  induction l with
  | nil => exact List.Perm.refl _
  | cons q qs ih =>
    unfold insertByCount
    by_cases h : q.OccurrenceCount < p.OccurrenceCount
    · rw [if_pos h]
    · rw [if_neg h]
      exact (ih.cons q).trans (List.Perm.swap p q qs)

/-- The sort is a permutation. -/
theorem sortPatterns_perm :
    ∀ (l acc : List CrashPattern),
      (l.foldl (fun acc p => insertByCount p acc) acc).Perm (acc ++ l) := by
  intro l
  induction l with
  | nil => intro acc; simp
  | cons p l ih =>
    intro acc
    simp only [List.foldl_cons]
    refine (ih (insertByCount p acc)).trans ?_
    refine (((insertByCount_perm p acc).append_right l).trans ?_)
    exact List.perm_middle.symm

/-- Insertion preserves descending order by occurrence count. -/
theorem insertByCount_pairwise (p : CrashPattern) :
    ∀ l : List CrashPattern,
      l.Pairwise (fun a b => b.OccurrenceCount ≤ a.OccurrenceCount) →
      (insertByCount p l).Pairwise (fun a b => b.OccurrenceCount ≤ a.OccurrenceCount) := by
  intro l
  induction l with
  | nil => intro _; simp [insertByCount]
  | cons q qs ih =>
    intro h
    obtain ⟨hq, hqs⟩ := List.pairwise_cons.mp h
    unfold insertByCount
    by_cases hcmp : q.OccurrenceCount < p.OccurrenceCount
    · rw [if_pos hcmp]
      refine List.pairwise_cons.mpr ⟨?_, h⟩
      intro r hr
      rcases List.mem_cons.mp hr with rfl | hr'
      · exact Nat.le_of_lt hcmp
      · exact Nat.le_trans (hq r hr') (Nat.le_of_lt hcmp)
    · rw [if_neg hcmp]
      refine List.pairwise_cons.mpr ⟨?_, ih hqs⟩
      intro r hr
      have hr' := (insertByCount_perm p qs).mem_iff.mp hr
      rcases List.mem_cons.mp hr' with rfl | hr''
      · exact Nat.le_of_not_lt hcmp
      · exact hq r hr''

/-- The sort produces a descending occurrence-count order. -/
theorem sortPatterns_pairwise :
    ∀ (l acc : List CrashPattern),
      acc.Pairwise (fun a b => b.OccurrenceCount ≤ a.OccurrenceCount) →
      (l.foldl (fun acc p => insertByCount p acc) acc).Pairwise
        (fun a b => b.OccurrenceCount ≤ a.OccurrenceCount) := by
  intro l
  induction l with
  | nil => intro acc h; exact h
  | cons p l ih =>
    intro acc h
    simp only [List.foldl_cons]
    exact ih _ (insertByCount_pairwise p acc h)

/-- `bump` raises the bumped key's count by one and leaves other counts
unchanged. -/
theorem lookupCount_bump (k k' : String) :
    ∀ m : List (String × Nat),
      lookupCount k (bump k' m) = lookupCount k m + (if k' = k then 1 else 0) := by
  intro m
  induction m with
  | nil =>
    unfold bump lookupCount
    by_cases h : k' = k <;> simp [h, lookupCount]
  | cons e rest ih =>
    unfold bump
    by_cases h0 : e.1 = k'
    · rw [if_pos h0]
      unfold lookupCount
      by_cases hk : e.1 = k
      · rw [if_pos hk, if_pos hk, if_pos (by rw [← h0, hk])]
      · rw [if_neg hk, if_neg hk, if_neg (by rw [← h0]; exact fun hc => hk hc)]
        omega
    · rw [if_neg h0]
      unfold lookupCount
      by_cases hk : e.1 = k
      · rw [if_pos hk, if_pos hk, if_neg (by rw [← hk]; exact fun hc => h0 hc.symm)]
        omega
      · rw [if_neg hk, if_neg hk, ih]

/-- The signal-tally fold counts every record with the queried signal. -/
theorem lookupCount_signal_fold (k : String) :
    ∀ (l : List CoreAnalysis) (m : List (String × Nat)),
      lookupCount k (l.foldl (fun m a => bump a.SignalInfo.SignalName m) m) =
        lookupCount k m + (l.filter fun a => a.SignalInfo.SignalName == k).length := by
  intro l
  induction l with
  | nil => intro m; simp
  | cons a l ih =>
    intro m
    simp only [List.foldl_cons, List.filter_cons]
    rw [ih, lookupCount_bump]
    by_cases h : a.SignalInfo.SignalName = k
    · rw [if_pos h, if_pos (by simpa using h)]
      simp [Nat.add_comm, Nat.add_assoc, Nat.add_left_comm]
    · rw [if_neg h, if_neg (by simpa using h)]
      omega

/-- The per-record function-tally fold counts every non-system frame with
the queried function name. -/
theorem lookupCount_frame_fold (isSys : String → Bool) (k : String) :
    ∀ (fs : List StackFrame) (m : List (String × Nat)),
      lookupCount k (fs.foldl
          (fun m f => if !isSys f.Function then bump f.Function m else m) m) =
        lookupCount k m +
          (fs.filter fun f => !isSys f.Function && f.Function == k).length := by
  intro fs
  induction fs with
  | nil => intro m; simp
  | cons f fs ih =>
    intro m
    simp only [List.foldl_cons, List.filter_cons]
    by_cases hs : isSys f.Function
    · rw [if_neg (by simp [hs]), ih,
        if_neg (by simp [hs])]
    · rw [if_pos (by simp [hs]), ih, lookupCount_bump]
      by_cases h : f.Function = k
      · rw [if_pos h, if_pos (by
          rw [Bool.and_eq_true]
          exact ⟨by simp [hs], by simp [h]⟩)]
        simp [Nat.add_comm, Nat.add_assoc, Nat.add_left_comm]
      · rw [if_neg h, if_neg (by simp [h])]
        omega

/-- The function-tally fold over the whole batch sums the per-record
non-system frame counts for the queried function name. -/
theorem lookupCount_function_fold (isSys : String → Bool) (k : String) :
    ∀ (l : List CoreAnalysis) (m : List (String × Nat)),
      lookupCount k (l.foldl
          (fun m a => a.StackTrace.foldl
            (fun m f => if !isSys f.Function then bump f.Function m else m) m) m) =
        lookupCount k m +
          (l.map fun a =>
            (a.StackTrace.filter fun f => !isSys f.Function && f.Function == k).length).sum := by
  intro l
  induction l with
  | nil => intro m; simp
  | cons a l ih =>
    intro m
    simp only [List.foldl_cons, List.map_cons, List.sum_cons]
    rw [ih, lookupCount_frame_fold]
    omega

/-- `countP` only depends on the predicate's values on the list. -/
theorem countP_congr_on {α : Type} (p q : α → Bool) :
    ∀ l : List α, (∀ a ∈ l, p a = q a) → l.countP p = l.countP q := by
  intro l
  induction l with
  | nil => intro _; rfl
  | cons a l ih =>
    intro h
    rw [List.countP_cons, List.countP_cons, h a (by simp),
      ih (fun b hb => h b (by simp [hb]))]

/-- The crash-pattern list of one run, written out. -/
theorem crashPatterns_eq (isSys : String → Bool)
    (σ : List (String × List CoreAnalysis) → List (String × List CoreAnalysis))
    (analyses : List CoreAnalysis) :
    (compareCoresWith isSys σ analyses).CrashPatterns =
      sortPatternsByCount
        (((σ (crashGroups isSys analyses)).filter (fun e => 1 < e.2.length)).map
          mkPattern) := rfl

/-- Decomposition of a reported pattern: it is built from a bucket of the
grouping pass with 2 or more members. -/
theorem mem_crashPatterns (isSys : String → Bool)
    (σ : List (String × List CoreAnalysis) → List (String × List CoreAnalysis))
    (analyses : List CoreAnalysis)
    (hperm : (σ (crashGroups isSys analyses)).Perm (crashGroups isSys analyses))
    (p : CrashPattern)
    (hp : p ∈ (compareCoresWith isSys σ analyses).CrashPatterns) :
    ∃ e, e ∈ crashGroups isSys analyses ∧ 1 < e.2.length ∧ p = mkPattern e := by
  rw [crashPatterns_eq] at hp
  have hp2 : p ∈ ((σ (crashGroups isSys analyses)).filter
      (fun e => 1 < e.2.length)).map mkPattern := by
    have hperm' := sortPatterns_perm
      (((σ (crashGroups isSys analyses)).filter (fun e => 1 < e.2.length)).map mkPattern) []
    rw [List.nil_append] at hperm'
    exact hperm'.mem_iff.mp hp
  obtain ⟨e, he, rfl⟩ := List.mem_map.mp hp2
  obtain ⟨he1, he2⟩ := List.mem_filter.mp he
  exact ⟨e, hperm.mem_iff.mp he1, by simpa using he2, rfl⟩

/-- C6, witness for the amended theorem on a concrete non-empty batch. -/
theorem time_range_minmax_witness :
    ∃ f l : GoTime,
      (compareCoresWith isSystemFunction id [goodTimeRecord, badTimeRecord]).TimeRange =
          [("first", formatRFC3339 f), ("last", formatRFC3339 l)]
        ∧ f ∈ [goodTimeRecord, badTimeRecord].map (fun a => parseOrZero a.Timestamp)
        ∧ l ∈ [goodTimeRecord, badTimeRecord].map (fun a => parseOrZero a.Timestamp)
        ∧ ∀ t ∈ [goodTimeRecord, badTimeRecord].map (fun a => parseOrZero a.Timestamp),
            t.before f = false ∧ t.after l = false :=
  time_range_minmax isSystemFunction id [goodTimeRecord, badTimeRecord] (by decide)

/-! ## C2 — the 2-or-more pattern threshold -/

/-- C2: on any run (any permutation `σ` of the bucket map), exactly one
pattern is reported for a signature whose bucket has 2 or more members and
none for a smaller bucket; a reported pattern for a signature carries the
bucket's size as `OccurrenceCount` and the bucket's core-file identities,
in input order, as `AffectedCoreFiles`; and the aggregate signal/function
tallies count every record (and every non-system frame occurrence) whether
or not its bucket becomes a pattern. -/
theorem crash_pattern_threshold :
    ∀ (isSys : String → Bool)
      (σ : List (String × List CoreAnalysis) → List (String × List CoreAnalysis))
      (analyses : List CoreAnalysis) (s : String),
      (σ (crashGroups isSys analyses)).Perm (crashGroups isSys analyses) →
      ((compareCoresWith isSys σ analyses).CrashPatterns.countP
          (fun p => decide (p.Signal :: p.StackSignature = goSplit '|' s)) =
        if 2 ≤ (analyses.filter fun a => signatureOf isSys a == s).length then 1 else 0)
        ∧ (∀ p ∈ (compareCoresWith isSys σ analyses).CrashPatterns,
            p.Signal :: p.StackSignature = goSplit '|' s →
            p.OccurrenceCount = (analyses.filter fun a => signatureOf isSys a == s).length
              ∧ p.AffectedCoreFiles =
                  (analyses.filter fun a => signatureOf isSys a == s).map (·.CoreFile))
        ∧ (lookupCount s (compareCoresWith isSys σ analyses).CommonSignals =
            (analyses.filter fun a => a.SignalInfo.SignalName == s).length)
        ∧ (lookupCount s (compareCoresWith isSys σ analyses).CommonFunctions =
            (analyses.map fun a =>
              (a.StackTrace.filter fun f => !isSys f.Function && f.Function == s).length).sum) := by
  intro isSys σ analyses s hperm
  obtain ⟨hnd, hbuck, hcomp⟩ := crashGroups_spec isSys analyses
  refine ⟨?_, ?_, ?_, ?_⟩
  case refine_3 =>
    have hfield : (compareCoresWith isSys σ analyses).CommonSignals =
        analyses.foldl (fun m a => bump a.SignalInfo.SignalName m) [] := rfl
    rw [hfield]
    have h := lookupCount_signal_fold s analyses []
    rw [show lookupCount s ([] : List (String × Nat)) = 0 from rfl, Nat.zero_add] at h
    exact h
  case refine_4 =>
    have hfield : (compareCoresWith isSys σ analyses).CommonFunctions =
        analyses.foldl
          (fun m a => a.StackTrace.foldl
            (fun m f => if !isSys f.Function then bump f.Function m else m) m) [] := rfl
    rw [hfield]
    have h := lookupCount_function_fold isSys s analyses []
    rw [show lookupCount s ([] : List (String × Nat)) = 0 from rfl, Nat.zero_add] at h
    exact h
  · -- count of matching patterns
    have hchain : (compareCoresWith isSys σ analyses).CrashPatterns.countP
        (fun p => decide (p.Signal :: p.StackSignature = goSplit '|' s)) =
        (crashGroups isSys analyses).countP
          (fun e => decide ((mkPattern e).Signal :: (mkPattern e).StackSignature =
            goSplit '|' s) && decide (1 < e.2.length)) := by
      rw [crashPatterns_eq]
      have h1 := (sortPatterns_perm
        (((σ (crashGroups isSys analyses)).filter (fun e => 1 < e.2.length)).map mkPattern)
        []).countP_eq (fun p => decide (p.Signal :: p.StackSignature = goSplit '|' s))
      rw [List.nil_append] at h1
      unfold sortPatternsByCount
      rw [h1, List.countP_map, List.countP_filter]
      simp only [Function.comp_def]
      exact hperm.countP_eq _
    rw [hchain]
    have hpt : ∀ e ∈ crashGroups isSys analyses,
        (decide ((mkPattern e).Signal :: (mkPattern e).StackSignature = goSplit '|' s)
          && decide (1 < e.2.length)) =
        (decide (e.1 = s) &&
          decide (1 < (analyses.filter fun a => signatureOf isSys a == s).length)) := by
      intro e he
      have h1 : ((mkPattern e).Signal :: (mkPattern e).StackSignature = goSplit '|' s)
          ↔ e.1 = s := by
        rw [mkPattern_parts e]
        exact ⟨goSplit_injective '|' e.1 s, fun h => by rw [h]⟩
      rw [decide_eq_decide.mpr h1]
      by_cases hes : e.1 = s
      · have := (hbuck e he).1
        rw [hes] at this
        rw [this]
      · simp [hes]
    rw [countP_congr_on _ _ _ hpt]
    by_cases hlen : 2 ≤ (analyses.filter fun a => signatureOf isSys a == s).length
    · rw [if_pos hlen]
      have h2 : (decide (1 <
          (analyses.filter fun a => signatureOf isSys a == s).length)) = true := by
        simp only [decide_eq_true_eq]
        omega
      have h3 : (crashGroups isSys analyses).countP
          (fun e => decide (e.1 = s) && decide (1 <
            (analyses.filter fun a => signatureOf isSys a == s).length)) =
          (crashGroups isSys analyses).countP (fun e => decide (e.1 = s)) := by
        refine countP_congr_on _ _ _ ?_
        intro e _
        rw [h2, Bool.and_true]
      rw [h3, countP_key_nodup _ s hnd]
      have hne : (analyses.filter fun a => signatureOf isSys a == s) ≠ [] := by
        intro hc
        rw [hc] at hlen
        simp at hlen
      obtain ⟨x, hx⟩ := List.exists_mem_of_ne_nil _ hne
      obtain ⟨hx1, hx2⟩ := List.mem_filter.mp hx
      have hxs : signatureOf isSys x = s := by simpa using hx2
      rw [if_pos (hxs ▸ hcomp x hx1)]
    · rw [if_neg hlen]
      rw [List.countP_eq_zero]
      intro e _
      have h2 : (decide (1 <
          (analyses.filter fun a => signatureOf isSys a == s).length)) = false := by
        simp only [decide_eq_false_iff_not]
        omega
      rw [h2, Bool.and_false]
      simp
  · -- fields of a matching pattern
    intro p hp hmatch
    obtain ⟨e, he, hlen, rfl⟩ := mem_crashPatterns isSys σ analyses hperm p hp
    have hes : e.1 = s := by
      rw [mkPattern_parts e] at hmatch
      exact goSplit_injective '|' e.1 s hmatch
    have hbe := (hbuck e he).1
    rw [hes] at hbe
    constructor
    · show e.2.length = _
      rw [hbe]
    · show e.2.map (·.CoreFile) = _
      rw [hbe]

/-- C2, witness at two records sharing a signature. -/
theorem crash_pattern_threshold_witness :
    ((compareCoresWith isSystemFunction id [twinRecordA, twinRecordB]).CrashPatterns.countP
        (fun p => decide (p.Signal :: p.StackSignature = goSplit '|' "SIGSEGV|foo")) =
      if 2 ≤ ([twinRecordA, twinRecordB].filter
          fun a => signatureOf isSystemFunction a == "SIGSEGV|foo").length then 1 else 0)
      ∧ (∀ p ∈ (compareCoresWith isSystemFunction id [twinRecordA, twinRecordB]).CrashPatterns,
          p.Signal :: p.StackSignature = goSplit '|' "SIGSEGV|foo" →
          p.OccurrenceCount = ([twinRecordA, twinRecordB].filter
              fun a => signatureOf isSystemFunction a == "SIGSEGV|foo").length
            ∧ p.AffectedCoreFiles = (([twinRecordA, twinRecordB].filter
                fun a => signatureOf isSystemFunction a == "SIGSEGV|foo")).map (·.CoreFile))
      ∧ (lookupCount "SIGSEGV|foo"
            (compareCoresWith isSystemFunction id [twinRecordA, twinRecordB]).CommonSignals =
          ([twinRecordA, twinRecordB].filter
            fun a => a.SignalInfo.SignalName == "SIGSEGV|foo").length)
      ∧ (lookupCount "SIGSEGV|foo"
            (compareCoresWith isSystemFunction id [twinRecordA, twinRecordB]).CommonFunctions =
          ([twinRecordA, twinRecordB].map fun a =>
            (a.StackTrace.filter fun f =>
              !isSystemFunction f.Function && f.Function == "SIGSEGV|foo").length).sum) :=
  crash_pattern_threshold isSystemFunction id [twinRecordA, twinRecordB] "SIGSEGV|foo"
    (List.Perm.refl _)

/-! ## C9 — per-pattern count/file invariants -/

/-- C9: on any run, every reported pattern's `OccurrenceCount` equals the
length of `AffectedCoreFiles`, is at least 2, and `AffectedCoreFiles`
lists exactly the core-file identity of each record in the pattern's
signature bucket (whose signature reassembles from
`Signal`/`StackSignature`). -/
theorem pattern_count_invariant :
    ∀ (isSys : String → Bool)
      (σ : List (String × List CoreAnalysis) → List (String × List CoreAnalysis))
      (analyses : List CoreAnalysis),
      (σ (crashGroups isSys analyses)).Perm (crashGroups isSys analyses) →
      ∀ p ∈ (compareCoresWith isSys σ analyses).CrashPatterns,
        p.OccurrenceCount = p.AffectedCoreFiles.length
          ∧ 2 ≤ p.OccurrenceCount
          ∧ ∃ s : String,
              p.Signal :: p.StackSignature = goSplit '|' s
                ∧ p.OccurrenceCount =
                    (analyses.filter fun a => signatureOf isSys a == s).length
                ∧ p.AffectedCoreFiles =
                    (analyses.filter fun a => signatureOf isSys a == s).map (·.CoreFile) := by
  intro isSys σ analyses hperm p hp
  obtain ⟨hnd, hbuck, hcomp⟩ := crashGroups_spec isSys analyses
  obtain ⟨e, he, hlen, rfl⟩ := mem_crashPatterns isSys σ analyses hperm p hp
  have hbe := (hbuck e he).1
  refine ⟨?_, ?_, e.1, mkPattern_parts e, ?_, ?_⟩
  · show e.2.length = (e.2.map (·.CoreFile)).length
    rw [List.length_map]
  · show 2 ≤ e.2.length
    omega
  · show e.2.length = _
    rw [hbe]
  · show e.2.map (·.CoreFile) = _
    rw [hbe]

/-- C9, witness at two records sharing a signature, instantiated at the
concrete reported pattern. -/
theorem pattern_count_invariant_witness :
    twinPattern.OccurrenceCount = twinPattern.AffectedCoreFiles.length
      ∧ 2 ≤ twinPattern.OccurrenceCount
      ∧ ∃ s : String,
          twinPattern.Signal :: twinPattern.StackSignature = goSplit '|' s
            ∧ twinPattern.OccurrenceCount = ([twinRecordA, twinRecordB].filter
                fun a => signatureOf isSystemFunction a == s).length
            ∧ twinPattern.AffectedCoreFiles = ([twinRecordA, twinRecordB].filter
                fun a => signatureOf isSystemFunction a == s).map (·.CoreFile) :=
  pattern_count_invariant isSystemFunction id [twinRecordA, twinRecordB]
    (List.Perm.refl _) twinPattern (by decide)

/-! ## C5 — ranking order and determinism -/

/-- C5, counterexample: two runs on the identical input that differ only
in the order Go's map iteration delivers the buckets (both orders are
permutations of the same bucket list) produce different `CrashPatterns`
orders for the two equal-count patterns — the output order is not
determined by the input, and the tie order is not the first-occurrence
order on both runs. -/
theorem pattern_order_counterexample :
    ((List.reverse (crashGroups isSystemFunction tieInput)).Perm
        (crashGroups isSystemFunction tieInput))
      ∧ compareCoresWith isSystemFunction id tieInput ≠
          compareCoresWith isSystemFunction List.reverse tieInput
      ∧ ((compareCoresWith isSystemFunction id tieInput).CrashPatterns.map
            (·.OccurrenceCount) =
          (compareCoresWith isSystemFunction List.reverse tieInput).CrashPatterns.map
            (·.OccurrenceCount)) := by
  refine ⟨by decide, by decide, by decide⟩

/-- C5, amended: on every run the reported patterns are ordered by
descending `OccurrenceCount`, and the patterns of any run are a
permutation of the reference run's — membership and counts are
input-determined — but the relative order of equal-count patterns follows
the run's map-enumeration order, which Go does not fix, so it is not
deterministic across runs. -/
theorem pattern_order_sorted :
    ∀ (isSys : String → Bool)
      (σ : List (String × List CoreAnalysis) → List (String × List CoreAnalysis))
      (analyses : List CoreAnalysis),
      ((compareCoresWith isSys σ analyses).CrashPatterns.Pairwise
          fun p q => q.OccurrenceCount ≤ p.OccurrenceCount)
        ∧ ((σ (crashGroups isSys analyses)).Perm (crashGroups isSys analyses) →
            (compareCoresWith isSys σ analyses).CrashPatterns.Perm
              (compareCoresWith isSys id analyses).CrashPatterns) := by
  intro isSys σ analyses
  constructor
  · rw [crashPatterns_eq]
    exact sortPatterns_pairwise _ [] (List.Pairwise.nil)
  · intro hperm
    rw [crashPatterns_eq, crashPatterns_eq]
    have h1 := sortPatterns_perm
      (((σ (crashGroups isSys analyses)).filter (fun e => 1 < e.2.length)).map mkPattern) []
    have h2 := sortPatterns_perm
      (((id (crashGroups isSys analyses)).filter (fun e => 1 < e.2.length)).map mkPattern) []
    rw [List.nil_append] at h1 h2
    refine h1.trans (.trans ?_ h2.symm)
    exact ((hperm.filter _).map mkPattern)

/-- C5, witness for the amended theorem: the shuffled run's patterns are a
permutation of the reference run's. -/
theorem pattern_order_sorted_witness :
    (compareCoresWith isSystemFunction List.reverse tieInput).CrashPatterns.Perm
      (compareCoresWith isSystemFunction id tieInput).CrashPatterns :=
  (pattern_order_sorted isSystemFunction List.reverse tieInput).2 (by decide)

end CBToolbox
